import Mathlib

/-!
Shallow embedding of the lichess-bot core (`__init__.py`): the dispatcher
loop `start`, the control-stream consumer `watch_control_stream`, the
per-game worker `play_game` together with its board helpers
(`setup_board`, `update_board`, `is_white_to_move`, `is_engine_move`),
and the configuration built by `serve_lichess`.

External collaborators (the `lichess` transport client, the `model`
module, the chess rules engine and the decision engine) are kept
abstract: their results enter the model as data (HTTP call results,
challenge payloads, an abstract board type with a `Rules` record of
operations), exactly at the points where `__init__.py` consumes them.
-/

namespace LichessBot

/-! ## Data model -/

/-- Payload of a `challenge` control event.  `score` and `is_supported`
are the values returned by `model.Challenge.score()` and
`model.Challenge.is_supported(challenge_config)` (the `model` module is
an external collaborator of `__init__.py`); the dispatcher only reads
these results, so they are carried as data on the event. -/
structure Challenge where
  id : String
  score : Int
  is_supported : Bool
deriving DecidableEq, Repr

/-- Result of one HTTP call made through the `lichess` client
(`accept_challenge` / `decline_challenge`): either success or a
`requests.HTTPError` carrying the response status code. -/
inductive HResult where
  | ok
  | httpErr (code : Nat)
deriving DecidableEq, Repr

/-- Events read from the control queue by the dispatcher loop in
`start`.  `other` covers any event type the `elif` chain does not
recognise (e.g. `gameFinish`): it falls through with no state change. -/
inductive CEvent where
  | challenge (c : Challenge)
  | gameStart (id : String)
  | localGameDone
  | terminated
  | ping
  | other (t : String)
deriving DecidableEq, Repr

def CEvent.isGameStart : CEvent → Bool
  | .gameStart _ => true
  | _ => false

/-- The `challenge` section of the CONFIG dict. -/
structure ChallengeConfig where
  concurrency : Nat
  sort_by : String
  accept_bot : Bool
  max_increment : Nat
  min_increment : Nat
  variants : List String
  time_controls : List String
  modes : List String
deriving DecidableEq, Repr

/-- The CONFIG dict handed to `start`. -/
structure Config where
  url : String
  abort_time : Nat
  challenge : ChallengeConfig
deriving DecidableEq, Repr

/-- Mutable state of the dispatcher loop in `start`: the two counters
and the challenge queue.  Python integers are unbounded and signed, so
the counters are `Int`. -/
structure DispatchSt where
  queued_processes : Int
  busy_processes : Int
  challenge_queue : List Challenge
deriving DecidableEq, Repr

/-! ## The best-first re-sort (lines 91-94)

`list_c.sort(key=lambda c: -c.score())` is CPython's stable sort by
ascending `-score`, i.e. the stable descending sort by `score`.  A
stable sort is extensionally determined by its order and stability, so
it is embedded as the stable insertion sort below: an element is placed
before exactly those elements whose score is strictly smaller, so that
among equal scores the original (insertion) order is kept. -/

def insert_desc (c : Challenge) : List Challenge → List Challenge
  | [] => [c]
  | x :: xs => if x.score ≤ c.score then c :: x :: xs else x :: insert_desc c xs

def sort_best_first (l : List Challenge) : List Challenge :=
  l.foldr insert_desc []

/-- Queue update on a supported `challenge` event (lines 90-94): append,
then re-sort only under the "best" policy (`challenge_config.get("sort_by",
"best") == "best"`; the config key is always present, cf. `serve_lichess`). -/
def queue_after_challenge (cfg : ChallengeConfig) (q : List Challenge)
    (c : Challenge) : List Challenge :=
  let q2 := q ++ [c]
  if cfg.sort_by = "best" then sort_best_first q2 else q2

/-! ## The admission-control drain loop (lines 111-122)

`while ((queued_processes + busy_processes) < max_games and
challenge_queue)`: pop the head, try `li.accept_challenge`; on success
increment `queued_processes`; on HTTP 404 skip the missing challenge; on
any other `HTTPError` re-raise (modelled as `Except.error code`).  The
successive results of the HTTP calls are consumed from the oracle list
`ora` (`ora.headD .ok`: an exhausted oracle means the call succeeds). -/

def accept_drain (max_games : Nat) (busy : Int) :
    Int → List Challenge → List HResult → Except Nat (Int × List Challenge × List HResult)
  | queued, [], ora => .ok (queued, [], ora)
  | queued, c :: rest, ora =>
    if queued + busy < (max_games : Int) then
      match ora.headD .ok with
      | .ok => accept_drain max_games busy (queued + 1) rest ora.tail
      | .httpErr code =>
        if code = 404 then accept_drain max_games busy queued rest ora.tail
        else .error code
    else .ok (queued, c :: rest, ora)

/-- Run the drain loop on a dispatcher state and repackage the result. -/
def drain_after (cfg : ChallengeConfig) (st : DispatchSt) (ora : List HResult) :
    Except Nat (Option (DispatchSt × List HResult)) :=
  match accept_drain cfg.concurrency st.busy_processes st.queued_processes
      st.challenge_queue ora with
  | .ok (queued2, q2, ora2) =>
    .ok (some ({ st with queued_processes := queued2, challenge_queue := q2 }, ora2))
  | .error code => .error code

/-! ## One iteration of the dispatcher loop (lines 80-122)

Processing one control event followed by the drain loop.  `.ok none`
models the `break` on a `terminated` event (the drain loop is not
reached); `.error code` models an uncaught `HTTPError` propagating out
of `start`. -/

def handle_event (cfg : ChallengeConfig) (st : DispatchSt) (ev : CEvent)
    (ora : List HResult) : Except Nat (Option (DispatchSt × List HResult)) :=
  match ev with
  | .terminated => .ok none
  | .localGameDone =>
    drain_after cfg { st with busy_processes := st.busy_processes - 1 } ora
  | .challenge c =>
    if c.is_supported then
      drain_after cfg
        { st with challenge_queue := queue_after_challenge cfg st.challenge_queue c } ora
    else
      -- li.decline_challenge: HTTP 404 is ignored, any other HTTPError re-raised
      match ora.headD .ok with
      | .ok => drain_after cfg st ora.tail
      | .httpErr code =>
        if code = 404 then drain_after cfg st ora.tail else .error code
  | .gameStart _ =>
    let queued2 :=
      if st.queued_processes ≤ 0 then st.queued_processes
      else st.queued_processes - 1
    drain_after cfg
      { st with queued_processes := queued2, busy_processes := st.busy_processes + 1 } ora
  | .ping => drain_after cfg st ora
  | .other _ => drain_after cfg st ora

/-- The dispatcher loop over a finite list of control-queue events. -/
def dispatch_run (cfg : ChallengeConfig) :
    DispatchSt → List HResult → List CEvent → Except Nat DispatchSt
  | st, _, [] => .ok st
  | st, ora, ev :: evs =>
    match handle_event cfg st ev ora with
    | .error code => .error code
    | .ok none => .ok st
    | .ok (some (st2, ora2)) => dispatch_run cfg st2 ora2 evs

/-- The worker-slot counter invariant of the spec. -/
def CounterInv (max_games : Nat) (st : DispatchSt) : Prop :=
  0 ≤ st.queued_processes ∧ 0 ≤ st.busy_processes ∧
    st.queued_processes + st.busy_processes ≤ (max_games : Int)

/-- Guard of one event against the current state: a `local_game_done`
must find a busy worker, a `gameStart` a queued slot. -/
def event_guard (st : DispatchSt) : CEvent → Bool
  | .localGameDone => decide (1 ≤ st.busy_processes)
  | .gameStart _ => decide (1 ≤ st.queued_processes)
  | _ => true

/-- Well-formedness of the incoming event trace with respect to the
run: every `local_game_done` is consumed with at least one busy worker
(it was emitted by a worker launched on an earlier `gameStart`), and
every `gameStart` is consumed with at least one queued slot (it answers
an earlier successful `accept_challenge`). -/
def validFrom (cfg : ChallengeConfig) :
    DispatchSt → List HResult → List CEvent → Bool
  | _, _, [] => true
  | st, ora, ev :: evs =>
    event_guard st ev &&
    (match handle_event cfg st ev ora with
     | .ok (some (st2, ora2)) => validFrom cfg st2 ora2 evs
     | _ => true)

/-! ## Exception taxonomy and the backoff wrapper (lines 42-43, 52, 127)

`is_final(exception)` returns true exactly for a `requests.HTTPError`
whose response status code is below 500.  Both `watch_control_stream`
and `play_game` are wrapped in
`backoff.on_exception(backoff.expo, BaseException, max_time=600, giveup=is_final)`:
an escaping exception is retried with exponential delay until either
`is_final` holds or the 600-second budget is exhausted, and is then
re-raised. -/

inductive Exn where
  | http_error (code : Nat)
  | conn_error
  | other_error
deriving DecidableEq, Repr

def is_final : Exn → Bool
  | .http_error code => decide (code < 500)
  | _ => false

/-! ## The control-stream consumer `watch_control_stream` (lines 52-65)

One invocation iterates over the lines of `li.get_event_stream()`: a
non-blank line is parsed by `json.loads` (modelled by the abstract
`parse` argument) and enqueued, a blank line is enqueued as a `ping`
event.  If the iteration raises one of the four connection-class errors,
a `terminated` event is enqueued and the function returns; on normal
exhaustion of the stream the function just returns. -/

inductive StreamItem where
  | line (s : String)
  | conn_error
deriving DecidableEq, Repr

def watch_control_stream (parse : String → CEvent) : List StreamItem → List CEvent
  | [] => []
  | .line s :: rest =>
    (if s = "" then CEvent.ping else parse s) :: watch_control_stream parse rest
  | .conn_error :: _ => [CEvent.terminated]

/-! ## The game worker `play_game` (lines 127-180)

One invocation of `play_game` (one backoff attempt) is summarised by
where, if anywhere, it fails:

* `setup_failure e` — an exception `e` raised before the `try:` block,
  i.e. in `li.get_game_stream`, in reading/parsing the first stream line,
  in `setup_board`, in `engine_factory()` or in building `Conversation`
  (lines 129-136).  The `finally:` block does not exist yet, so no event
  is put and `e` escapes to the backoff wrapper.
* `body_http code` — an `HTTPError` raised inside the `try:` block: the
  `except HTTPError` clause swallows it (it only inspects
  `li.get_ongoing_games()` and logs), then `finally:` puts one
  `local_game_done` event and the attempt returns normally.
* `body_conn` — a connection-class error inside the `try:` block:
  likewise swallowed after logging; one `local_game_done`, normal return.
* `body_other` — any other exception inside the `try:` block: no
  `except` clause matches, `finally:` puts one `local_game_done`, and
  the exception escapes to the backoff wrapper.
* `normal` — the stream ends normally: `finally:` puts one
  `local_game_done`, normal return. -/

inductive AttemptSpec where
  | setup_failure (e : Exn)
  | body_http (code : Nat)
  | body_conn
  | body_other
  | normal
deriving DecidableEq, Repr

/-- Control-queue events put by one attempt, and the exception (if any)
escaping from it. -/
def play_game_attempt : AttemptSpec → List CEvent × Option Exn
  | .setup_failure e => ([], some e)
  | .body_http _ => ([CEvent.localGameDone], none)
  | .body_conn => ([CEvent.localGameDone], none)
  | .body_other => ([CEvent.localGameDone], some Exn.other_error)
  | .normal => ([CEvent.localGameDone], none)

/-- The backoff wrapper around `play_game`.  The script lists the
successive attempts the 600-second budget allows: after the last listed
attempt the budget is exhausted, so its escaping exception (if any) is
re-raised instead of retried; earlier escaping exceptions are retried
unless `is_final` holds. -/
def backoff_run : List AttemptSpec → List CEvent × Option Exn
  | [] => ([], none)
  | [a] => play_game_attempt a
  | a :: rest =>
    let r := play_game_attempt a
    match r.2 with
    | none => r
    | some e =>
      if is_final e then r
      else
        let r2 := backoff_run rest
        (r.1 ++ r2.1, r2.2)

/-! ## Board helpers and the per-game protocol loop (lines 140-216)

The rules engine (`python-chess`) is an external collaborator: the board
type is abstract, and the operations `play_game` actually uses —
constructing the initial position and `board.push` / `is_game_over` —
are fields of a `Rules` record. -/

structure Rules (Board : Type) where
  push : Board → String → Board
  is_game_over : Board → Bool
  board960 : String → Board
  board_from_fen : String → Board
  variant_board : String → Board

/-- The fields of `model.Game` read by the code in `__init__.py`
(`model` is an external collaborator): `variant_name`, `initial_fen`,
the split move list of the stored `state`, the two colour flags, and the
current result of `game.should_abort_now()` (a comparison of the stored
abort deadline against the clock, recomputed by `game.abort_in` after
each move the engine makes). -/
structure Game where
  variant_name : String
  initial_fen : String
  state_moves : List String
  is_white : Bool
  white_starts : Bool
  should_abort_now : Bool
deriving DecidableEq, Repr

def update_board {B : Type} (R : Rules B) (board : B) (move : String) : B :=
  R.push board move

/-- The variant dispatch at the top of `setup_board` (lines 193-199). -/
def initial_board {B : Type} (R : Rules B) (g : Game) : B :=
  if g.variant_name.toLower = "chess960" then R.board960 g.initial_fen
  else if g.variant_name = "From Position" then R.board_from_fen g.initial_fen
  else R.variant_board g.variant_name

/-- `setup_board` (lines 192-204): build the initial position, then
replay every recorded move of `game.state["moves"].split()`. -/
def setup_board {B : Type} (R : Rules B) (g : Game) : B :=
  g.state_moves.foldl (update_board R) (initial_board R g)

/-- `is_white_to_move` (lines 207-208). -/
def is_white_to_move (g : Game) (moves : List String) : Bool :=
  moves.length % 2 == (if g.white_starts then 0 else 1)

/-- `is_engine_move` (lines 210-211). -/
def is_engine_move (g : Game) (moves : List String) : Bool :=
  g.is_white == is_white_to_move g moves

/-- One `gameState` payload as used by the loop: the split move list
(`upd["moves"].split()`).  The clock subset (`wtime`/`btime`/`winc`/
`binc`) is passed through to the engine verbatim and does not influence
any modelled observable. -/
structure GameStateUpd where
  moves : List String
deriving DecidableEq, Repr

/-- One line of the per-game stream as discriminated by lines 144-145:
an empty `binary_chunk` gives `upd = None` and `u_type = "ping"`; a
non-blank line gives `u_type = upd["type"]`. -/
inductive GameLine where
  | blank
  | chatLine
  | gameState (u : GameStateUpd)
  | ping
  | other (t : String)
deriving DecidableEq, Repr

/-- The externally visible calls one loop iteration can make:
`conversation.react`, `engine.move`, `li.make_move`, `li.abort`. -/
inductive WorkerAction where
  | chat_react
  | engine_move
  | make_move
  | abort_game
deriving DecidableEq, Repr

/-- One iteration of the `for binary_chunk in lines` loop of `play_game`
(lines 143-162): returns the updated game, the updated board and the
calls made, or `none` when the iteration raises (`moves[-1]` on an empty
move list raises `IndexError`). -/
def loop_step {B : Type} (R : Rules B) (g : Game) (board : B) :
    GameLine → Option (Game × B × List WorkerAction)
  | .chatLine => some (g, board, [WorkerAction.chat_react])
  | .gameState u =>
    match u.moves.getLast? with
    | none => none
    | some mv =>
      let g2 := { g with state_moves := u.moves }
      let board2 := update_board R board mv
      if !R.is_game_over board2 && is_engine_move g u.moves then
        some (g2, board2, [WorkerAction.engine_move, WorkerAction.make_move])
      else
        some (g2, board2, [])
  | .blank =>
    some (g, board, if g.should_abort_now then [WorkerAction.abort_game] else [])
  | .ping =>
    some (g, board, if g.should_abort_now then [WorkerAction.abort_game] else [])
  | .other _ => some (g, board, [])

/-! ## Incremental board reconstruction (claim about lines 149-151)

During a game the `gameState` updates carry ever longer move lists
`ms ++ ks.take 1, ms ++ ks.take 2, ...`, one new move per update, and
each iteration advances the board by `moves[-1]`, the single newest
move. -/

def incremental_updates (ms : List String) : List String → List GameStateUpd
  | [] => []
  | k :: ks => ⟨ms ++ [k]⟩ :: incremental_updates (ms ++ [k]) ks

/-- Line 151, `board = update_board(board, moves[-1])`, as a partial
board transformer (`moves[-1]` raises on an empty list). -/
def apply_update {B : Type} (R : Rules B) (board : B) (u : GameStateUpd) : Option B :=
  (u.moves.getLast?).map (update_board R board)

def replay_incremental {B : Type} (R : Rules B) (board : B) :
    List GameStateUpd → Option B
  | [] => some board
  | u :: us =>
    match apply_update R board u with
    | none => none
    | some b2 => replay_incremental R b2 us

/-! ## `serve_lichess` (lines 227-296) -/

/-- The CONFIG dict constructed by `serve_lichess` from its arguments
(lines 278-291): only `concurrency`, `time_controls` and `modes` come
from the caller; every other field is a literal. -/
def serve_lichess_config (concurrency : Nat) (time_controls modes : List String)
    (url : String) : Config :=
  { url := url
    abort_time := 20
    challenge :=
      { concurrency := concurrency
        sort_by := "first"
        accept_bot := true
        max_increment := 180
        min_increment := 0
        variants := ["standard"]
        time_controls := time_controls
        modes := modes } }

/-! ## Challenge-queue identifiers (claim about duplicate entries) -/

def queue_ids (q : List Challenge) : List String := q.map Challenge.id

/-- Identifiers of the supported challenges among a list of control
events (only these are ever appended to the challenge queue). -/
def supported_challenge_ids : List CEvent → List String
  | [] => []
  | CEvent.challenge c :: evs =>
    if c.is_supported then c.id :: supported_challenge_ids evs
    else supported_challenge_ids evs
  | _ :: evs => supported_challenge_ids evs

/-! ## Concrete instances used to evaluate the model -/

/-- A trivial rules engine over `Nat` boards: `push` counts moves. -/
def test_rules : Rules Nat :=
  { push := fun b _ => b + 1
    is_game_over := fun _ => false
    board960 := fun _ => 0
    board_from_fen := fun _ => 0
    variant_board := fun _ => 0 }

/-- A concrete game: the engine plays White in a standard game. -/
def test_game : Game :=
  { variant_name := "Standard"
    initial_fen := ""
    state_moves := []
    is_white := true
    white_starts := true
    should_abort_now := false }

/-- A concrete challenge configuration with the best-first policy. -/
def test_cfg_best : ChallengeConfig :=
  { concurrency := 1
    sort_by := "best"
    accept_bot := true
    max_increment := 180
    min_increment := 0
    variants := ["standard"]
    time_controls := ["blitz"]
    modes := ["casual"] }

/-- The same configuration with insertion-order queueing and a zero
concurrency cap (the drain loop then never accepts). -/
def test_cfg_first0 : ChallengeConfig :=
  { test_cfg_best with concurrency := 0, sort_by := "first" }

/-!
# Theorems
-/

/-! ## Lemmas on the drain loop -/

theorem accept_drain_spec (max_games : Nat) (busy : Int) (q : List Challenge) :
    ∀ (queued : Int) (ora : List HResult) (queued2 : Int) (q2 : List Challenge)
      (ora2 : List HResult),
      accept_drain max_games busy queued q ora = Except.ok (queued2, q2, ora2) →
      queued ≤ queued2 ∧
      (queued + busy ≤ (max_games : Int) → queued2 + busy ≤ (max_games : Int)) ∧
      q2.Sublist q := by
  induction q with
  | nil =>
    intro queued ora queued2 q2 ora2 h
    simp only [accept_drain, Except.ok.injEq, Prod.mk.injEq] at h
    obtain ⟨rfl, rfl, rfl⟩ := h
    exact ⟨le_refl _, fun h => h, List.Sublist.refl _⟩
  | cons c rest ih =>
    intro queued ora queued2 q2 ora2 h
    rw [accept_drain] at h
    by_cases hlt : queued + busy < (max_games : Int)
    · rw [if_pos hlt] at h
      cases ho : ora.headD HResult.ok with
      | ok =>
        rw [ho] at h
        obtain ⟨h1, h2, h3⟩ := ih (queued + 1) ora.tail queued2 q2 ora2 h
        exact ⟨by omega, fun _ => h2 (by omega), h3.trans (List.sublist_cons_self c rest)⟩
      | httpErr code =>
        rw [ho] at h
        have h4 : (if code = 404 then accept_drain max_games busy queued rest ora.tail
            else Except.error code) = Except.ok (queued2, q2, ora2) := h
        by_cases hc : code = 404
        · rw [if_pos hc] at h4
          obtain ⟨h1, h2, h3⟩ := ih queued ora.tail queued2 q2 ora2 h4
          exact ⟨h1, h2, h3.trans (List.sublist_cons_self c rest)⟩
        · rw [if_neg hc] at h4
          exact absurd h4 (by simp)
    · rw [if_neg hlt] at h
      simp only [Except.ok.injEq, Prod.mk.injEq] at h
      obtain ⟨rfl, rfl, rfl⟩ := h
      exact ⟨le_refl _, fun h => h, List.Sublist.refl _⟩

theorem drain_after_spec (cfg : ChallengeConfig) (st : DispatchSt) (ora : List HResult)
    (st2 : DispatchSt) (ora2 : List HResult)
    (h : drain_after cfg st ora = Except.ok (some (st2, ora2))) :
    st.queued_processes ≤ st2.queued_processes ∧
    (st.queued_processes + st.busy_processes ≤ (cfg.concurrency : Int) →
      st2.queued_processes + st2.busy_processes ≤ (cfg.concurrency : Int)) ∧
    st2.busy_processes = st.busy_processes ∧
    st2.challenge_queue.Sublist st.challenge_queue := by
  unfold drain_after at h
  cases hd : accept_drain cfg.concurrency st.busy_processes st.queued_processes
      st.challenge_queue ora with
  | ok r =>
    obtain ⟨queued2, q2, ora3⟩ := r
    rw [hd] at h
    simp only [Except.ok.injEq, Option.some.injEq, Prod.mk.injEq] at h
    obtain ⟨rfl, rfl⟩ := h
    obtain ⟨h1, h2, h3⟩ :=
      accept_drain_spec cfg.concurrency st.busy_processes st.challenge_queue
        st.queued_processes ora queued2 q2 ora3 hd
    exact ⟨h1, h2, rfl, h3⟩
  | error code =>
    rw [hd] at h
    exact absurd h (by simp)

/-! ## Lemmas on incremental board reconstruction -/

theorem getLast?_append_singleton {α : Type} (l : List α) (a : α) :
    (l ++ [a]).getLast? = some a := by
  rw [List.getLast?_concat]

theorem replay_incremental_foldl {B : Type} (R : Rules B) (ks : List String) :
    ∀ (ms : List String) (b : B),
      replay_incremental R b (incremental_updates ms ks) =
        some (ks.foldl (update_board R) b) := by
  induction ks with
  | nil =>
    intro ms b
    rfl
  | cons k ks ih =>
    intro ms b
    rw [incremental_updates, replay_incremental]
    have h1 : apply_update R b ⟨ms ++ [k]⟩ = some (update_board R b k) := by
      simp [apply_update, getLast?_append_singleton]
    rw [h1]
    exact ih (ms ++ [k]) (update_board R b k)

theorem incremental_updates_as_range (ks : List String) :
    ∀ ms : List String,
      incremental_updates ms ks =
        (List.range ks.length).map (fun j => ⟨ms ++ ks.take (j + 1)⟩) := by
  induction ks with
  | nil => intro ms; rfl
  | cons k ks ih =>
    intro ms
    rw [incremental_updates, ih (ms ++ [k]), List.length_cons,
      List.range_succ_eq_map, List.map_cons, List.map_map]
    refine congrArg₂ List.cons (by simp) (List.map_congr_left ?_)
    intro j hj
    simp [List.take_succ_cons, List.append_assoc]

/-- C6: building the Board from a snapshot with the first N moves and
then advancing it with one `update_board` per incremental `gameState`
update (each applying `moves[-1]`, the single newest move) yields the
same Board as one `setup_board` pass over all N+k moves.  The second
conjunct records that the j-th modelled update indeed carries the move
list `ms ++ ks.take (j+1)`. -/
theorem board_reconstruction {B : Type} (R : Rules B) (g : Game) (ks : List String) :
    replay_incremental R (setup_board R g) (incremental_updates g.state_moves ks) =
      some (setup_board R { g with state_moves := g.state_moves ++ ks }) ∧
    incremental_updates g.state_moves ks =
      (List.range ks.length).map (fun j => ⟨g.state_moves ++ ks.take (j + 1)⟩) := by
  refine ⟨?_, incremental_updates_as_range ks g.state_moves⟩
  rw [replay_incremental_foldl]
  unfold setup_board initial_board
  simp [List.foldl_append]

/-- C2: on the failing input where `li.get_game_stream` raises a
connectivity error on every backoff attempt until the 600-second budget
is exhausted (the spec scenario: three in-budget retries, then a fourth
exceeding it), the worker exits having put zero `local_game_done`
events, because the failure precedes the `try`/`finally` block; and on
the input where a non-HTTP, non-connection error escapes the loop body
and the retried attempt then ends normally, two events are put.  Both
contradict the claimed exactly-one. -/
theorem play_game_done_event_miscount :
    (backoff_run [AttemptSpec.setup_failure Exn.conn_error]).1.count
        CEvent.localGameDone = 0 ∧
    (backoff_run [AttemptSpec.setup_failure Exn.conn_error,
        AttemptSpec.setup_failure Exn.conn_error,
        AttemptSpec.setup_failure Exn.conn_error,
        AttemptSpec.setup_failure Exn.conn_error]).1.count CEvent.localGameDone = 0 ∧
    (backoff_run [AttemptSpec.body_other, AttemptSpec.normal]).1.count
        CEvent.localGameDone = 2 := by
  decide

/-- C9: the CONFIG dict built by `serve_lichess` always carries
`sort_by = "first"` (so the best-first re-sort branch of the dispatcher
is never taken from this entry point), `variants = ["standard"]`,
`accept_bot = True`, `min_increment = 0`, `max_increment = 180` and
`abort_time = 20`; only `concurrency`, `time_controls` and `modes` come
from the caller. -/
theorem serve_lichess_fixed_policy (concurrency : Nat)
    (time_controls modes : List String) (url : String) :
    (serve_lichess_config concurrency time_controls modes url).challenge.sort_by
        = "first" ∧
    (serve_lichess_config concurrency time_controls modes url).challenge.sort_by
        ≠ "best" ∧
    (∀ (q : List Challenge) (c : Challenge),
      queue_after_challenge
          (serve_lichess_config concurrency time_controls modes url).challenge q c =
        q ++ [c]) ∧
    (serve_lichess_config concurrency time_controls modes url).challenge.variants
        = ["standard"] ∧
    (serve_lichess_config concurrency time_controls modes url).challenge.accept_bot
        = true ∧
    (serve_lichess_config concurrency time_controls modes url).challenge.min_increment
        = 0 ∧
    (serve_lichess_config concurrency time_controls modes url).challenge.max_increment
        = 180 ∧
    (serve_lichess_config concurrency time_controls modes url).abort_time = 20 ∧
    (serve_lichess_config concurrency time_controls modes url).challenge.concurrency
        = concurrency ∧
    (serve_lichess_config concurrency time_controls modes url).challenge.time_controls
        = time_controls ∧
    (serve_lichess_config concurrency time_controls modes url).challenge.modes
        = modes := by
  refine ⟨rfl, ?_, ?_, rfl, rfl, rfl, rfl, rfl, rfl, rfl, rfl⟩
  · show ("first" : String) ≠ "best"
    decide
  · intro q c
    rfl

/-- C10: a blank line of the per-game stream is handled exactly as a
ping: the game and board are unchanged, an abort call is issued iff
`game.should_abort_now()` holds, and neither the chatLine handler nor
the gameState handler (engine request, move submission) is invoked. -/
theorem blank_line_is_ping {B : Type} (R : Rules B) (g : Game) (board : B) :
    loop_step R g board GameLine.blank =
      some (g, board,
        if g.should_abort_now then [WorkerAction.abort_game] else []) ∧
    loop_step R g board GameLine.blank = loop_step R g board GameLine.ping ∧
    (WorkerAction.abort_game ∈
        (if g.should_abort_now then [WorkerAction.abort_game]
         else ([] : List WorkerAction)) ↔
      g.should_abort_now = true) ∧
    WorkerAction.chat_react ∉
      (if g.should_abort_now then [WorkerAction.abort_game]
       else ([] : List WorkerAction)) ∧
    WorkerAction.engine_move ∉
      (if g.should_abort_now then [WorkerAction.abort_game]
       else ([] : List WorkerAction)) ∧
    WorkerAction.make_move ∉
      (if g.should_abort_now then [WorkerAction.abort_game]
       else ([] : List WorkerAction)) := by
  refine ⟨rfl, rfl, ?_, ?_, ?_, ?_⟩ <;> cases h : g.should_abort_now <;> simp

/-! ## Lemmas on the stable best-first sort -/

theorem insert_desc_perm (c : Challenge) (l : List Challenge) :
    (insert_desc c l).Perm (c :: l) := by
  induction l with
  | nil => exact List.Perm.refl _
  | cons x xs ih =>
    rw [insert_desc]
    by_cases h : x.score ≤ c.score
    · rw [if_pos h]
    · rw [if_neg h]
      exact (ih.cons x).trans (List.Perm.swap c x xs)

theorem sort_best_first_perm (l : List Challenge) : (sort_best_first l).Perm l := by
  induction l with
  | nil => exact List.Perm.refl _
  | cons c xs ih =>
    exact (insert_desc_perm c (sort_best_first xs)).trans (ih.cons c)

theorem insert_desc_pairwise (c : Challenge) (l : List Challenge)
    (h : l.Pairwise (fun a b => b.score ≤ a.score)) :
    (insert_desc c l).Pairwise (fun a b => b.score ≤ a.score) := by
  induction l with
  | nil => simp [insert_desc]
  | cons x xs ih =>
    rw [insert_desc]
    rw [List.pairwise_cons] at h
    obtain ⟨hx, hxs⟩ := h
    by_cases hle : x.score ≤ c.score
    · rw [if_pos hle]
      refine List.pairwise_cons.mpr ⟨?_, List.pairwise_cons.mpr ⟨hx, hxs⟩⟩
      intro y hy
      rcases List.mem_cons.mp hy with rfl | hy2
      · exact hle
      · exact le_trans (hx y hy2) hle
    · rw [if_neg hle]
      refine List.pairwise_cons.mpr ⟨?_, ih hxs⟩
      intro y hy
      have hy3 : y = c ∨ y ∈ xs := by
        have hmem := (insert_desc_perm c xs).mem_iff.mp hy
        simpa using hmem
      rcases hy3 with rfl | hy4
      · exact le_of_lt (lt_of_not_le hle)
      · exact hx y hy4

theorem sort_best_first_pairwise (l : List Challenge) :
    (sort_best_first l).Pairwise (fun a b => b.score ≤ a.score) := by
  induction l with
  | nil => simp [sort_best_first]
  | cons c xs ih => exact insert_desc_pairwise c _ ih

theorem filter_insert_desc (c : Challenge) (s : Int) (l : List Challenge) :
    (insert_desc c l).filter (fun x => x.score == s) =
      if c.score == s then c :: l.filter (fun x => x.score == s)
      else l.filter (fun x => x.score == s) := by
  induction l with
  | nil => simp [insert_desc, List.filter_singleton]
  | cons x xs ih =>
    rw [insert_desc]
    by_cases hle : x.score ≤ c.score
    · rw [if_pos hle, List.filter_cons]
    · rw [if_neg hle, List.filter_cons, ih, List.filter_cons]
      by_cases hc : (c.score == s) = true
      · have hlt : c.score < x.score := lt_of_not_le hle
        have hcs : c.score = s := by simpa using hc
        have hxs : x.score ≠ s := by omega
        have hx : (x.score == s) = false := by
          simp only [beq_eq_false_iff_ne, ne_eq]
          exact hxs
        simp [hc, hx]
      · have hcf : (c.score == s) = false := by
          simpa using hc
        simp [hcf]

theorem sort_best_first_stable (s : Int) (l : List Challenge) :
    (sort_best_first l).filter (fun x => x.score == s) =
      l.filter (fun x => x.score == s) := by
  induction l with
  | nil => rfl
  | cons c xs ih =>
    have h0 : sort_best_first (c :: xs) = insert_desc c (sort_best_first xs) := rfl
    rw [h0, filter_insert_desc, List.filter_cons]
    by_cases hc : (c.score == s) = true
    · simp [hc, ih]
    · have hcf : (c.score == s) = false := by simpa using hc
      simp [hcf, ih]

/-- C7: under the "best" sort policy, after the dispatcher processes a
supported `challenge` event the challenge queue is the stable descending
re-sort of the previous queue with the new entry appended, minus the
entries popped from its front by the drain loop: it is sorted by
descending score, and the re-sort is stable — for every score, the
entries of that score appear exactly in their original insertion
order. -/
theorem best_first_queue_sorted_stable (cfg : ChallengeConfig) (st : DispatchSt)
    (ora : List HResult) (c : Challenge) (st2 : DispatchSt) (ora2 : List HResult)
    (hbest : cfg.sort_by = "best") (hsup : c.is_supported = true)
    (hstep : handle_event cfg st (CEvent.challenge c) ora =
      Except.ok (some (st2, ora2))) :
    st2.challenge_queue.Pairwise (fun a b => b.score ≤ a.score) ∧
    st2.challenge_queue.Sublist (sort_best_first (st.challenge_queue ++ [c])) ∧
    ∀ s : Int,
      (sort_best_first (st.challenge_queue ++ [c])).filter (fun x => x.score == s) =
        (st.challenge_queue ++ [c]).filter (fun x => x.score == s) := by
  have hq : queue_after_challenge cfg st.challenge_queue c =
      sort_best_first (st.challenge_queue ++ [c]) := by
    unfold queue_after_challenge
    rw [if_pos hbest]
  simp only [handle_event] at hstep
  rw [if_pos hsup, hq] at hstep
  obtain ⟨_, _, _, h4⟩ := drain_after_spec _ _ _ _ _ hstep
  have h5 : st2.challenge_queue.Sublist
      (sort_best_first (st.challenge_queue ++ [c])) := h4
  exact ⟨List.Pairwise.sublist h5 (sort_best_first_pairwise _), h5,
    fun s => sort_best_first_stable s (st.challenge_queue ++ [c])⟩

/-! ## The worker-slot counter invariant -/

theorem handle_event_counter_inv (cfg : ChallengeConfig) (st : DispatchSt) (ev : CEvent)
    (ora : List HResult) (st2 : DispatchSt) (ora2 : List HResult)
    (hInv : CounterInv cfg.concurrency st)
    (hBusy : ev = CEvent.localGameDone → 1 ≤ st.busy_processes)
    (hQueued : CEvent.isGameStart ev = true → 1 ≤ st.queued_processes)
    (h : handle_event cfg st ev ora = Except.ok (some (st2, ora2))) :
    CounterInv cfg.concurrency st2 := by
  obtain ⟨hq0, hb0, hsum⟩ := hInv
  cases ev with
  | terminated => simp [handle_event] at h
  | localGameDone =>
    have hb1 := hBusy rfl
    simp only [handle_event] at h
    obtain ⟨h1, h2, h3, _⟩ := drain_after_spec _ _ _ _ _ h
    dsimp only at h1 h2 h3
    have h2b := h2 (by omega)
    exact ⟨by omega, by omega, h2b⟩
  | challenge c =>
    simp only [handle_event] at h
    by_cases hsup : c.is_supported = true
    · rw [if_pos hsup] at h
      obtain ⟨h1, h2, h3, _⟩ := drain_after_spec _ _ _ _ _ h
      dsimp only at h1 h2 h3
      have h2b := h2 (by omega)
      exact ⟨by omega, by omega, h2b⟩
    · rw [if_neg hsup] at h
      cases ho : ora.headD HResult.ok with
      | ok =>
        rw [ho] at h
        have h' : drain_after cfg st ora.tail = Except.ok (some (st2, ora2)) := h
        obtain ⟨h1, h2, h3, _⟩ := drain_after_spec _ _ _ _ _ h'
        have h2b := h2 (by omega)
        exact ⟨by omega, by omega, h2b⟩
      | httpErr code =>
        rw [ho] at h
        have h' : (if code = 404 then drain_after cfg st ora.tail
            else Except.error code) = Except.ok (some (st2, ora2)) := h
        by_cases hc : code = 404
        · rw [if_pos hc] at h'
          obtain ⟨h1, h2, h3, _⟩ := drain_after_spec _ _ _ _ _ h'
          have h2b := h2 (by omega)
          exact ⟨by omega, by omega, h2b⟩
        · rw [if_neg hc] at h'
          exact absurd h' (by simp)
  | gameStart id =>
    have hq1 := hQueued rfl
    simp only [handle_event] at h
    rw [if_neg (by omega : ¬ st.queued_processes ≤ 0)] at h
    obtain ⟨h1, h2, h3, _⟩ := drain_after_spec _ _ _ _ _ h
    dsimp only at h1 h2 h3
    have h2b := h2 (by omega)
    exact ⟨by omega, by omega, h2b⟩
  | ping =>
    simp only [handle_event] at h
    obtain ⟨h1, h2, h3, _⟩ := drain_after_spec _ _ _ _ _ h
    have h2b := h2 (by omega)
    exact ⟨by omega, by omega, h2b⟩
  | other t =>
    simp only [handle_event] at h
    obtain ⟨h1, h2, h3, _⟩ := drain_after_spec _ _ _ _ _ h
    have h2b := h2 (by omega)
    exact ⟨by omega, by omega, h2b⟩

theorem dispatch_run_counter_inv (cfg : ChallengeConfig) (evs : List CEvent) :
    ∀ (st : DispatchSt) (ora : List HResult) (st2 : DispatchSt),
      CounterInv cfg.concurrency st →
      validFrom cfg st ora evs = true →
      dispatch_run cfg st ora evs = Except.ok st2 →
      CounterInv cfg.concurrency st2 := by
  induction evs with
  | nil =>
    intro st ora st2 hInv _ hrun
    simp only [dispatch_run, Except.ok.injEq] at hrun
    rwa [← hrun]
  | cons ev evs ih =>
    intro st ora st2 hInv hvalid hrun
    rw [validFrom, Bool.and_eq_true] at hvalid
    obtain ⟨hguard, hrest⟩ := hvalid
    rw [dispatch_run] at hrun
    cases hh : handle_event cfg st ev ora with
    | error code =>
      rw [hh] at hrun
      exact absurd hrun (by simp)
    | ok o =>
      cases o with
      | none =>
        rw [hh] at hrun
        simp only [Except.ok.injEq] at hrun
        rwa [← hrun]
      | some p =>
        obtain ⟨stm, oram⟩ := p
        rw [hh] at hrun
        have hrun2 : dispatch_run cfg stm oram evs = Except.ok st2 := hrun
        have hstep : CounterInv cfg.concurrency stm := by
          refine handle_event_counter_inv cfg st ev ora stm oram hInv ?_ ?_ hh
          · intro he
            subst he
            exact of_decide_eq_true hguard
          · intro hgs
            cases ev with
            | gameStart id2 => exact of_decide_eq_true hguard
            | challenge c => simp [CEvent.isGameStart] at hgs
            | localGameDone => simp [CEvent.isGameStart] at hgs
            | terminated => simp [CEvent.isGameStart] at hgs
            | ping => simp [CEvent.isGameStart] at hgs
            | other t => simp [CEvent.isGameStart] at hgs
        have hvrest : validFrom cfg stm oram evs = true := by
          rw [hh] at hrest
          exact hrest
        exact ih stm oram st2 hstep hvrest hrun2

/-- C1 counterexample: the dispatcher decrements `busy_processes`
unconditionally on `local_game_done`, so consuming such an event with no
busy worker (which the worker code can produce, since a retried
`play_game` attempt can report twice) drives the counter to -1,
violating the claimed `busy_processes ≥ 0`. -/
theorem dispatcher_counter_negative_counterexample :
    dispatch_run test_cfg_best (DispatchSt.mk 0 0 []) [] [CEvent.localGameDone] =
      Except.ok (DispatchSt.mk 0 (-1) []) ∧
    ¬ CounterInv test_cfg_best.concurrency (DispatchSt.mk 0 (-1) []) :=
  ⟨rfl, fun h => absurd h.2.1 (by decide)⟩

/-- C1 (amended): for every run of the dispatcher loop over a control-event trace
that is well formed for the run (every `local_game_done` was emitted by
a running worker, every `gameStart` answers an earlier accepted
challenge — `validFrom`), the counters satisfy `queued_processes ≥ 0`,
`busy_processes ≥ 0` and `queued_processes + busy_processes ≤ max_games`
immediately after every admission-control pass (instantiate `evs` with
any prefix of the trace to read the invariant off the intermediate
state); and processing a `local_game_done` event decrements
`busy_processes` by exactly one, which never makes it negative when a
worker was running. -/
theorem dispatcher_counter_invariant (cfg : ChallengeConfig) (st : DispatchSt)
    (ora : List HResult) (evs : List CEvent) (st2 : DispatchSt)
    (hInv : CounterInv cfg.concurrency st)
    (hValid : validFrom cfg st ora evs = true)
    (hRun : dispatch_run cfg st ora evs = Except.ok st2) :
    CounterInv cfg.concurrency st2 ∧
    ∀ (st3 st4 : DispatchSt) (ora3 ora4 : List HResult),
      1 ≤ st3.busy_processes →
      handle_event cfg st3 CEvent.localGameDone ora3 =
        Except.ok (some (st4, ora4)) →
      st4.busy_processes = st3.busy_processes - 1 ∧ 0 ≤ st4.busy_processes := by
  refine ⟨dispatch_run_counter_inv cfg evs st ora st2 hInv hValid hRun, ?_⟩
  intro st3 st4 ora3 ora4 hb h
  simp only [handle_event] at h
  obtain ⟨_, _, h3, _⟩ := drain_after_spec _ _ _ _ _ h
  dsimp only at h3
  exact ⟨h3, by omega⟩

/-! ## Duplicate identifiers in the challenge queue -/

theorem queue_after_challenge_ids_perm (cfg : ChallengeConfig)
    (q : List Challenge) (c : Challenge) :
    (queue_ids (queue_after_challenge cfg q c)).Perm (queue_ids q ++ [c.id]) := by
  unfold queue_after_challenge
  by_cases hb : cfg.sort_by = "best"
  · rw [if_pos hb]
    unfold queue_ids
    refine (List.Perm.map _ (sort_best_first_perm (q ++ [c]))).trans ?_
    rw [List.map_append]
    exact List.Perm.refl _
  · rw [if_neg hb]
    unfold queue_ids
    rw [List.map_append]
    exact List.Perm.refl _

theorem handle_event_nodup (cfg : ChallengeConfig) (st : DispatchSt) (ev : CEvent)
    (ora : List HResult) (st2 : DispatchSt) (ora2 : List HResult) (rest : List CEvent)
    (hN : (queue_ids st.challenge_queue ++
      supported_challenge_ids (ev :: rest)).Nodup)
    (h : handle_event cfg st ev ora = Except.ok (some (st2, ora2))) :
    (queue_ids st2.challenge_queue ++ supported_challenge_ids rest).Nodup := by
  cases ev with
  | terminated => simp [handle_event] at h
  | challenge c =>
    by_cases hsup : c.is_supported = true
    · simp only [handle_event] at h
      rw [if_pos hsup] at h
      obtain ⟨_, _, _, h4⟩ := drain_after_spec _ _ _ _ _ h
      dsimp only at h4
      have hsid : supported_challenge_ids (CEvent.challenge c :: rest) =
          c.id :: supported_challenge_ids rest := by
        rw [supported_challenge_ids, if_pos hsup]
      rw [hsid] at hN
      have hN2 : ((queue_ids st.challenge_queue ++ [c.id]) ++
          supported_challenge_ids rest).Nodup := by
        rwa [List.append_assoc, List.singleton_append]
      have hp2 : ((queue_ids (queue_after_challenge cfg st.challenge_queue c)) ++
          supported_challenge_ids rest).Perm
          ((queue_ids st.challenge_queue ++ [c.id]) ++
            supported_challenge_ids rest) :=
        List.Perm.append_right _ (queue_after_challenge_ids_perm cfg _ c)
      have hN3 : ((queue_ids (queue_after_challenge cfg st.challenge_queue c)) ++
          supported_challenge_ids rest).Nodup := hp2.nodup_iff.mpr hN2
      exact hN3.sublist
        (List.Sublist.append_right (List.Sublist.map _ h4) _)
    · simp only [handle_event] at h
      rw [if_neg hsup] at h
      have hsid : supported_challenge_ids (CEvent.challenge c :: rest) =
          supported_challenge_ids rest := by
        rw [supported_challenge_ids, if_neg hsup]
      rw [hsid] at hN
      cases ho : ora.headD HResult.ok with
      | ok =>
        rw [ho] at h
        have h2 : drain_after cfg st ora.tail = Except.ok (some (st2, ora2)) := h
        obtain ⟨_, _, _, h4⟩ := drain_after_spec _ _ _ _ _ h2
        exact hN.sublist (List.Sublist.append_right (List.Sublist.map _ h4) _)
      | httpErr code =>
        rw [ho] at h
        have h2 : (if code = 404 then drain_after cfg st ora.tail
            else Except.error code) = Except.ok (some (st2, ora2)) := h
        by_cases hc : code = 404
        · rw [if_pos hc] at h2
          obtain ⟨_, _, _, h4⟩ := drain_after_spec _ _ _ _ _ h2
          exact hN.sublist (List.Sublist.append_right (List.Sublist.map _ h4) _)
        · rw [if_neg hc] at h2
          exact absurd h2 (by simp)
  | localGameDone =>
    simp only [handle_event] at h
    obtain ⟨_, _, _, h4⟩ := drain_after_spec _ _ _ _ _ h
    dsimp only at h4
    exact hN.sublist (List.Sublist.append_right (List.Sublist.map _ h4) _)
  | gameStart id =>
    simp only [handle_event] at h
    obtain ⟨_, _, _, h4⟩ := drain_after_spec _ _ _ _ _ h
    dsimp only at h4
    exact hN.sublist (List.Sublist.append_right (List.Sublist.map _ h4) _)
  | ping =>
    simp only [handle_event] at h
    obtain ⟨_, _, _, h4⟩ := drain_after_spec _ _ _ _ _ h
    exact hN.sublist (List.Sublist.append_right (List.Sublist.map _ h4) _)
  | other t =>
    simp only [handle_event] at h
    obtain ⟨_, _, _, h4⟩ := drain_after_spec _ _ _ _ _ h
    exact hN.sublist (List.Sublist.append_right (List.Sublist.map _ h4) _)

theorem dispatch_run_nodup (cfg : ChallengeConfig) (evs : List CEvent) :
    ∀ (st : DispatchSt) (ora : List HResult) (st2 : DispatchSt),
      (queue_ids st.challenge_queue ++ supported_challenge_ids evs).Nodup →
      dispatch_run cfg st ora evs = Except.ok st2 →
      (queue_ids st2.challenge_queue).Nodup := by
  induction evs with
  | nil =>
    intro st ora st2 hN hrun
    simp only [dispatch_run, Except.ok.injEq] at hrun
    simp only [supported_challenge_ids, List.append_nil] at hN
    rwa [← hrun]
  | cons ev evs ih =>
    intro st ora st2 hN hrun
    rw [dispatch_run] at hrun
    cases hh : handle_event cfg st ev ora with
    | error code =>
      rw [hh] at hrun
      exact absurd hrun (by simp)
    | ok o =>
      cases o with
      | none =>
        rw [hh] at hrun
        simp only [Except.ok.injEq] at hrun
        have hq : (queue_ids st.challenge_queue).Nodup :=
          hN.sublist (List.sublist_append_left _ _)
        rwa [← hrun]
      | some p =>
        obtain ⟨stm, oram⟩ := p
        rw [hh] at hrun
        have hrun2 : dispatch_run cfg stm oram evs = Except.ok st2 := hrun
        exact ih stm oram st2
          (handle_event_nodup cfg st ev ora stm oram evs hN hh) hrun2

/-- C3 counterexample: the code never checks for duplicates, so two
`challenge` events carrying the same identifier (which the server can
produce, e.g. by re-delivering a pending challenge after a stream
reconnect) put two entries with the same id in the queue.  Here the
concurrency cap is 0 (first-come policy), so the drain loop removes
nothing. -/
theorem challenge_queue_duplicate_counterexample :
    dispatch_run test_cfg_first0 (DispatchSt.mk 0 0 []) []
        [CEvent.challenge (Challenge.mk "abc" 5 true),
         CEvent.challenge (Challenge.mk "abc" 5 true)] =
      Except.ok (DispatchSt.mk 0 0
        [Challenge.mk "abc" 5 true, Challenge.mk "abc" 5 true]) ∧
    ¬ (queue_ids
        [Challenge.mk "abc" 5 true, Challenge.mk "abc" 5 true]).Nodup := by
  exact ⟨rfl, by decide⟩

/-- C3 (amended): provided all supported `challenge` events of the trace
carry pairwise distinct identifiers that are also distinct from those
already queued, the challenge queue never contains two entries with the
same challenge identifier (the code itself performs no
deduplication). -/
theorem challenge_queue_nodup_ids (cfg : ChallengeConfig) (st : DispatchSt)
    (ora : List HResult) (evs : List CEvent) (st2 : DispatchSt)
    (hids : (queue_ids st.challenge_queue ++ supported_challenge_ids evs).Nodup)
    (hRun : dispatch_run cfg st ora evs = Except.ok st2) :
    (queue_ids st2.challenge_queue).Nodup :=
  dispatch_run_nodup cfg evs st ora st2 hids hRun

/-! ## The terminated event of the control-stream consumer -/

/-- C4 counterexample: when the underlying event stream ends normally
(the line iterator is simply exhausted), `watch_control_stream` returns
without enqueuing any event at all — in particular no `terminated`
event, contradicting the claimed exactly-one on every stop. -/
theorem watch_control_stream_normal_end_counterexample :
    watch_control_stream (fun _ => CEvent.ping) [] = [] ∧
    ¬ ((watch_control_stream (fun _ => CEvent.ping) []).count
        CEvent.terminated = 1) := by
  exact ⟨rfl, by decide⟩

/-- C4 (amended): provided the server never sends a line that parses to
a `terminated` event (that event type is made up locally), one
invocation of `watch_control_stream` enqueues exactly one `terminated`
event iff the stream iteration raises a connection-class error, and zero
when the stream ends normally; and the game workers never produce a
`terminated` event, so the consumer remains its sole producer. -/
theorem watch_control_stream_terminated_iff (parse : String → CEvent)
    (script : List StreamItem)
    (hparse : ∀ s : String, parse s ≠ CEvent.terminated) :
    (watch_control_stream parse script).count CEvent.terminated =
      (if StreamItem.conn_error ∈ script then 1 else 0) ∧
    ∀ attempts : List AttemptSpec,
      CEvent.terminated ∉ (backoff_run attempts).1 := by
  constructor
  · induction script with
    | nil => rfl
    | cons it rest ih =>
      cases it with
      | line s =>
        have hne : (if s = "" then CEvent.ping else parse s) ≠ CEvent.terminated := by
          by_cases hb : s = ""
          · rw [if_pos hb]
            exact (by decide : CEvent.ping ≠ CEvent.terminated)
          · rw [if_neg hb]
            exact hparse s
        rw [watch_control_stream, List.count_cons]
        simp [ih, hne, List.mem_cons]
      | conn_error =>
        rw [watch_control_stream]
        simp [List.count_cons, List.mem_cons]
  · intro attempts
    induction attempts with
    | nil => simp [backoff_run]
    | cons a rest ih =>
      cases rest with
      | nil => cases a <;> simp [backoff_run, play_game_attempt]
      | cons b rest2 =>
        cases a with
        | setup_failure e =>
          simp only [backoff_run, play_game_attempt]
          by_cases hf : is_final e = true
          · simp [hf]
          · have hf2 : is_final e = false := by
              cases hfe : is_final e
              · rfl
              · exact absurd hfe hf
            simp [hf2, ih]
        | body_http code => simp [backoff_run, play_game_attempt]
        | body_conn => simp [backoff_run, play_game_attempt]
        | body_other =>
          simp only [backoff_run, play_game_attempt]
          simp [is_final, ih]
        | normal => simp [backoff_run, play_game_attempt]

/-! ## Engine invocation on a gameState update -/

/-- C5: on a `gameState` update whose move list ends in move `mv`, the
worker advances the board by exactly `mv`; if the updated board is not
game-over and the move-count parity matches the engine's colour
(`is_engine_move`), exactly one engine move request and one move
submission are issued; if the game is over or it is the opponent's turn,
none are. -/
theorem gameState_engine_call_counts {B : Type} (R : Rules B) (g : Game) (board : B)
    (u : GameStateUpd) (mv : String) (g2 : Game) (b2 : B) (acts : List WorkerAction)
    (hmv : u.moves.getLast? = some mv)
    (hstep : loop_step R g board (GameLine.gameState u) = some (g2, b2, acts)) :
    b2 = update_board R board mv ∧
    g2 = { g with state_moves := u.moves } ∧
    (R.is_game_over b2 = false ∧ is_engine_move g u.moves = true →
      acts.count WorkerAction.engine_move = 1 ∧
      acts.count WorkerAction.make_move = 1) ∧
    (R.is_game_over b2 = true ∨ is_engine_move g u.moves = false →
      acts.count WorkerAction.engine_move = 0 ∧
      acts.count WorkerAction.make_move = 0) := by
  simp only [loop_step, hmv] at hstep
  by_cases hcond :
      (!R.is_game_over (update_board R board mv) && is_engine_move g u.moves) = true
  · rw [if_pos hcond] at hstep
    simp only [Option.some.injEq, Prod.mk.injEq] at hstep
    obtain ⟨hg, hb, ha⟩ := hstep
    rw [Bool.and_eq_true] at hcond
    obtain ⟨hnot, heng⟩ := hcond
    have hover : R.is_game_over (update_board R board mv) = false := by
      cases hov : R.is_game_over (update_board R board mv)
      · rfl
      · rw [hov] at hnot
        exact absurd hnot (by decide)
    refine ⟨hb.symm, hg.symm, fun _ => ?_, fun hcontra => ?_⟩
    · rw [← ha]
      exact ⟨by decide, by decide⟩
    · rcases hcontra with hc1 | hc2
      · rw [← hb, hover] at hc1
        exact absurd hc1 (by decide)
      · rw [heng] at hc2
        exact absurd hc2 (by decide)
  · rw [if_neg hcond] at hstep
    simp only [Option.some.injEq, Prod.mk.injEq] at hstep
    obtain ⟨hg, hb, ha⟩ := hstep
    refine ⟨hb.symm, hg.symm, fun hcontra => ?_, fun _ => ?_⟩
    · obtain ⟨h1, h2⟩ := hcontra
      rw [← hb] at h1
      exact absurd (by rw [h1, h2] :
        (!R.is_game_over (update_board R board mv) && is_engine_move g u.moves)
          = (!false && true)) (by simpa using hcond)
    · rw [← ha]
      exact ⟨by decide, by decide⟩

/-! ## 404 tolerance on accept and decline -/

/-- C8: a 404 from `accept_challenge` drops the popped challenge and
continues the drain loop with `queued_processes` unchanged; any other
HTTP error from accept aborts the drain loop with that code; a 404 from
`decline_challenge` is ignored (processing proceeds to the drain loop
exactly as on success); any other HTTP error from decline is re-raised;
and an error result of event processing makes the whole dispatcher run
return that error (fatal). -/
theorem http_404_handling (cfg : ChallengeConfig) (st : DispatchSt)
    (max_games : Nat) (queued busy : Int) (c : Challenge) (rest : List Challenge)
    (ora : List HResult) (code : Nat)
    (hroom : queued + busy < (max_games : Int)) (hcode : code ≠ 404)
    (hunsup : c.is_supported = false) :
    accept_drain max_games busy queued (c :: rest) (HResult.httpErr 404 :: ora) =
      accept_drain max_games busy queued rest ora ∧
    accept_drain max_games busy queued (c :: rest) (HResult.httpErr code :: ora) =
      Except.error code ∧
    handle_event cfg st (CEvent.challenge c) (HResult.httpErr 404 :: ora) =
      drain_after cfg st ora ∧
    handle_event cfg st (CEvent.challenge c) (HResult.httpErr code :: ora) =
      Except.error code ∧
    ∀ (ev : CEvent) (evs : List CEvent) (ora3 : List HResult) (ecode : Nat),
      handle_event cfg st ev ora3 = Except.error ecode →
      dispatch_run cfg st ora3 (ev :: evs) = Except.error ecode := by
  refine ⟨?_, ?_, ?_, ?_, ?_⟩
  · rw [accept_drain, if_pos hroom]
    rfl
  · rw [accept_drain, if_pos hroom]
    show (if code = 404 then accept_drain max_games busy queued rest ora
        else Except.error code) = Except.error code
    rw [if_neg hcode]
  · simp [handle_event, hunsup]
  · simp [handle_event, hunsup, hcode]
  · intro ev evs ora3 ecode hh
    rw [dispatch_run, hh]

/-! ## Witnesses -/

/-- Witness for C1 on a concrete run: one supported challenge is
accepted, the game starts and finishes; the invariant holds at the
end. -/
theorem dispatcher_counter_invariant_witness :
    CounterInv test_cfg_best.concurrency (DispatchSt.mk 0 0 []) :=
  (dispatcher_counter_invariant test_cfg_best (DispatchSt.mk 0 0 [])
    [HResult.ok]
    [CEvent.challenge (Challenge.mk "a" 5 true), CEvent.gameStart "g1",
      CEvent.localGameDone]
    (DispatchSt.mk 0 0 [])
    ⟨by decide, by decide, by decide⟩ rfl rfl).1

/-- Witness for C3 (amended) on a concrete run with two distinct
challenge identifiers. -/
theorem challenge_queue_nodup_ids_witness :
    (queue_ids [Challenge.mk "a" 5 true, Challenge.mk "b" 9 true]).Nodup :=
  challenge_queue_nodup_ids test_cfg_first0 (DispatchSt.mk 0 0 []) []
    [CEvent.challenge (Challenge.mk "a" 5 true),
      CEvent.challenge (Challenge.mk "b" 9 true)]
    (DispatchSt.mk 0 0
      [Challenge.mk "a" 5 true, Challenge.mk "b" 9 true])
    (by decide) rfl

/-- Witness for C4 (amended) on a concrete stream that raises a
connection error after one line. -/
theorem watch_control_stream_terminated_iff_witness :
    (watch_control_stream (fun _ => CEvent.ping)
        [StreamItem.line "x", StreamItem.conn_error]).count CEvent.terminated =
      (if StreamItem.conn_error ∈ [StreamItem.line "x", StreamItem.conn_error]
       then 1 else 0) :=
  (watch_control_stream_terminated_iff (fun _ => CEvent.ping)
    [StreamItem.line "x", StreamItem.conn_error]
    (fun _ h => CEvent.noConfusion h)).1

/-- Witness for C5 on a concrete update: after 1. e4 e5 it is White's
(the engine's) turn, so exactly one engine request and one move
submission happen. -/
theorem gameState_engine_call_counts_witness :
    List.count WorkerAction.engine_move
        [WorkerAction.engine_move, WorkerAction.make_move] = 1 ∧
    List.count WorkerAction.make_move
        [WorkerAction.engine_move, WorkerAction.make_move] = 1 :=
  (gameState_engine_call_counts test_rules test_game 0
    (GameStateUpd.mk ["e2e4", "e7e5"]) "e7e5"
    { test_game with state_moves := ["e2e4", "e7e5"] } 1
    [WorkerAction.engine_move, WorkerAction.make_move]
    rfl rfl).2.2.1 ⟨rfl, rfl⟩

/-- Witness for C7 on a concrete insertion: with a full slot the drain
loop pops nothing and the queue is the sorted [b(9), a(5)]. -/
theorem best_first_queue_sorted_stable_witness :
    ([Challenge.mk "b" 9 true, Challenge.mk "a" 5 true]).Pairwise
      (fun a b => b.score ≤ a.score) :=
  (best_first_queue_sorted_stable test_cfg_best
    (DispatchSt.mk 1 0 [Challenge.mk "a" 5 true]) []
    (Challenge.mk "b" 9 true)
    (DispatchSt.mk 1 0 [Challenge.mk "b" 9 true, Challenge.mk "a" 5 true]) []
    rfl rfl rfl).1

/-- Witness for C8 on a concrete drain step: a 404 on accept drops the
challenge and continues with the same `queued_processes`. -/
theorem http_404_handling_witness :
    accept_drain 1 0 0 [Challenge.mk "z" 3 false] [HResult.httpErr 404] =
      accept_drain 1 0 0 [] [] :=
  (http_404_handling test_cfg_best (DispatchSt.mk 0 0 []) 1 0 0
    (Challenge.mk "z" 3 false) [] [] 500
    (by decide) (by decide) rfl).1

end LichessBot
